import Mathlib

/-!
Shallow embedding of the mitmproxy-log-to-Elasticsearch ingestion pipeline
(`utils.py`, `log_processor.py`, `main.py`, `es_client.py`, `config.py`)
and proofs about its discovery, extraction, ledger and sink behaviour.

JSON values are modelled by the inductive `JValue`; Python runtime errors
(TypeError/KeyError raised on mis-typed containers) are modelled with
`Except`; the library calls `json.loads`, `os.path.getmtime`,
`datetime.now` and file loading are abstracted as function parameters.
-/

namespace MitmES

/-- A parsed JSON value, the shape of Python data flowing through the
pipeline (`None`, booleans, numbers, strings, lists, dicts). -/
inductive JValue where
  | null : JValue
  | bool : Bool → JValue
  | num : Int → JValue
  | str : String → JValue
  | arr : List JValue → JValue
  | obj : List (String × JValue) → JValue
  deriving Repr

namespace JValue

mutual

/-- Structural equality on JSON values (Python `==` restricted to
JSON-shaped data). -/
def beq : JValue → JValue → Bool
  | .null, .null => true
  | .bool a, .bool b => a == b
  | .num a, .num b => a == b
  | .str a, .str b => a == b
  | .arr xs, .arr ys => beqList xs ys
  | .obj fs, .obj gs => beqObj fs gs
  | _, _ => false

/-- Elementwise equality of JSON lists. -/
def beqList : List JValue → List JValue → Bool
  | [], [] => true
  | x :: xs, y :: ys => beq x y && beqList xs ys
  | _, _ => false

/-- Elementwise equality of JSON object field lists. -/
def beqObj : List (String × JValue) → List (String × JValue) → Bool
  | [], [] => true
  | (k, v) :: fs, (k', v') :: gs => k == k' && beq v v' && beqObj fs gs
  | _, _ => false

end

instance : BEq JValue := ⟨beq⟩

/-- Python truthiness (`if x:`) on JSON-shaped values. -/
def truthy : JValue → Bool
  | .null => false
  | .bool b => b
  | .num n => n != 0
  | .str s => s != ""
  | .arr xs => !xs.isEmpty
  | .obj fs => !fs.isEmpty

/-- Dict lookup on an object's field list (first binding wins, as in a
Python dict whose keys are unique). -/
def lookup (k : String) : List (String × JValue) → Option JValue
  | [] => none
  | (k', v) :: rest => if k' = k then some v else lookup k rest

/-- Python `k in v`: key membership for dicts, element membership for
lists, substring test for strings; a `TypeError` for the rest. -/
def pyContains (k : String) : JValue → Except Unit Bool
  | .obj fs => .ok (fs.any (fun p => p.1 == k))
  | .arr xs => .ok (xs.any (fun x => beq x (.str k)))
  | .str s => .ok (decide (k.data <:+: s.data))
  | _ => .error ()

/-- Python subscript `v[k]` with a string key: dict lookup (`KeyError`
when absent), `TypeError` on anything else. -/
def pySubscript (v : JValue) (k : String) : Except Unit JValue :=
  match v with
  | .obj fs => match lookup k fs with
    | some x => .ok x
    | none => .error ()
  | _ => .error ()

/-- Python `v.get(k)` on a dict: the value, or `None` when absent.
Only ever evaluated on dict-shaped values in the embedded code. -/
def pyGet (v : JValue) (k : String) : JValue :=
  match v with
  | .obj fs => match lookup k fs with
    | some x => x
    | none => .null
  | _ => .null

/-- Python iteration `for x in v`: lists yield elements, strings yield
one-character strings, dicts yield their keys; a `TypeError` otherwise. -/
def pyIter : JValue → Except Unit (List JValue)
  | .arr xs => .ok xs
  | .str s => .ok (s.data.map (fun c => .str (String.mk [c])))
  | .obj fs => .ok (fs.map (fun p => .str p.1))
  | _ => .error ()

end JValue

/-! ## `utils.py`: filename decoders and the ledger file

Python's `str.split('_')` and `os.path` helpers are modelled over the
character list of the string, so that every definition evaluates by
kernel reduction. -/

/-- Worker for `pySplit`: `acc` holds the current token reversed. -/
def pySplitGo (sep : Char) : List Char → List Char → List String
  | [], acc => [String.mk acc.reverse]
  | c :: cs, acc =>
    if c = sep then String.mk acc.reverse :: pySplitGo sep cs []
    else pySplitGo sep cs (c :: acc)

/-- Python `s.split(sep)` for a one-character separator: the list of
tokens between occurrences of `sep` (`"" → [""]`). -/
def pySplit (sep : Char) (s : String) : List String :=
  pySplitGo sep s.data []

/-- Python `s.endswith(sfx)`. -/
def strEndsWith (s sfx : String) : Bool := decide (sfx.data <:+ s.data)

/-- `utils.extract_machine_id`: second underscore-delimited token of the
filename, `"unknown"` when missing. -/
def extract_machine_id (filename : String) : String :=
  let parts := pySplit '_' filename
  if parts.length > 1 then parts[1]! else "unknown"

/-- `utils.extract_ip_address`: third underscore-delimited token,
`"unknown"` when missing. -/
def extract_ip_address (filename : String) : String :=
  let parts := pySplit '_' filename
  if parts.length > 2 then parts[2]! else "unknown"

/-- `utils.extract_editor_version`: fourth underscore-delimited token,
`"unknown"` when missing. -/
def extract_editor_version (filename : String) : String :=
  let parts := pySplit '_' filename
  if parts.length > 3 then parts[3]! else "unknown"

/-- The durable dedup ledger (`processed_files.log`): the ordered list of
lines of the append-only file. -/
abbrev Ledger := List String

/-- `utils.get_processed_files`: the set of ledger lines, modelled as the
membership test over the line list. -/
def get_processed_files (ledger : Ledger) : List String := ledger

/-- `utils.mark_file_as_processed`: append one path line to the ledger
file. -/
def mark_file_as_processed (ledger : Ledger) (path : String) : Ledger :=
  List.append ledger [path]

/-- `os.path.basename`: the part after the last `/`. -/
def basename (path : String) : String :=
  (pySplit '/' path).getLastD ""

/-- Join path components with `/`. -/
def joinSlash : List String → String
  | [] => ""
  | [s] => s
  | s :: rest => s ++ "/" ++ joinSlash rest

/-- `os.path.dirname`: the part before the last `/`. -/
def dirname (path : String) : String :=
  joinSlash ((pySplit '/' path).dropLast)

/-- `config.get_user_id_from_path`: basename of the dirname of a user's
log directory. -/
def get_user_id_from_path (log_dir : String) : String :=
  basename (dirname log_dir)

/-- `config.MAX_FILES_PER_BATCH`. -/
def MAX_FILES_PER_BATCH : Int := 100

/-- `config.ES_INDEX_PREFIX`. -/
def ES_INDEX_PREFIX : String := "copilot-chat-logs"

/-! ## `log_processor.py`: conversation extraction

`LogProcessor.extract_conversation` runs inside one `try`/`except` that
swallows every exception and returns the turns accumulated so far.  The
two phases (request branch, response branch) are embedded as functions
into `Except (List Turn) (List Turn)`: `.ok ts` means the phase completed
producing turns `ts`, `.error ts` means a Python `TypeError`/`KeyError`
escaped after `ts` had already been appended (the remainder of the `try`
body is then skipped).  `json.loads` is abstracted as a parameter
`jloads` returning `none` on a `JSONDecodeError`. -/

/-- One entry of the `conversation` list: the dict
`{'role': r, 'content': c, 'timestamp': t}` built by
`extract_conversation`. -/
structure Turn where
  role : JValue
  content : JValue
  timestamp : JValue
  deriving Repr

/-- The `for msg in request_content['messages']` loop: appends one turn
per message carrying both a `role` and a `content`; a mis-typed message
raises out of the loop with the turns appended so far. -/
def msgTurns (tstamp : JValue) : List JValue → List Turn → Except (List Turn) (List Turn)
  | [], acc => .ok acc
  | msg :: rest, acc =>
    match JValue.pyContains "role" msg with
    | .error _ => .error acc
    | .ok false => msgTurns tstamp rest acc
    | .ok true =>
      match JValue.pyContains "content" msg with
      | .error _ => .error acc
      | .ok false => msgTurns tstamp rest acc
      | .ok true =>
        match msg.pySubscript "role" with
        | .error _ => .error acc
        | .ok r =>
          match msg.pySubscript "content" with
          | .error _ => .error acc
          | .ok c => msgTurns tstamp rest (acc ++ [⟨r, c, tstamp⟩])

/-- The string-reparse step of the request branch (lines 66–70): a
string content is replaced by its JSON parse when that succeeds and kept
verbatim otherwise; non-strings pass through. -/
def parsedContent (jloads : String → Option JValue) (rc0 : JValue) : JValue :=
  match rc0 with
  | .str s =>
    (match jloads s with
    | some v => v
    | none => .str s)
  | _ => rc0

/-- The request branch of `extract_conversation` (lines 62–80): parse a
string `request.content` as JSON if possible, then walk its `messages`
list. -/
def requestPhase (jloads : String → Option JValue) (log_data : JValue) :
    Except (List Turn) (List Turn) :=
  match JValue.pyContains "request" log_data with
  | .error _ => .error []
  | .ok false => .ok []
  | .ok true =>
    match log_data.pySubscript "request" with
    | .error _ => .error []
    | .ok req =>
      match JValue.pyContains "content" req with
      | .error _ => .error []
      | .ok false => .ok []
      | .ok true =>
        match req.pySubscript "content" with
        | .error _ => .error []
        | .ok rc0 =>
          match parsedContent jloads rc0 with
          | .obj fs =>
            match JValue.lookup "messages" fs with
            | none => .ok []
            | some msgs =>
              match msgs.pyIter with
              | .error _ => .error []
              | .ok ms => msgTurns (log_data.pyGet "timestamp") ms []
          | _ => .ok []

/-- The inner `for choice in chunk['choices']` loop of the streaming
branch: concatenates truthy `delta.content` strings onto the
accumulator; a truthy non-string `delta.content` raises a `TypeError`
out of `assistant_message += delta['content']`. -/
def choicesAccum : List JValue → String → Except Unit String
  | [], acc => .ok acc
  | choice :: rest, acc =>
    match choice with
    | .obj cfs =>
      match JValue.lookup "delta" cfs with
      | none => choicesAccum rest acc
      | some delta =>
        match delta with
        | .obj dfs =>
          match JValue.lookup "content" dfs with
          | none => choicesAccum rest acc
          | some c =>
            if c.truthy then
              match c with
              | .str s => choicesAccum rest (acc ++ s)
              | _ => .error ()
            else choicesAccum rest acc
        | _ => choicesAccum rest acc
    | _ => choicesAccum rest acc

/-- The outer `for chunk in response_content` loop of the streaming
branch (lines 103–109): visits each dict chunk with a truthy `choices`
value and folds its choices into the accumulator; iterating a truthy
non-iterable `choices` raises a `TypeError`. -/
def chunksAccum : List JValue → String → Except Unit String
  | [], acc => .ok acc
  | chunk :: rest, acc =>
    match chunk with
    | .obj cfs =>
      match JValue.lookup "choices" cfs with
      | none => chunksAccum rest acc
      | some chs =>
        if chs.truthy then
          match chs.pyIter with
          | .error _ => .error ()
          | .ok cl =>
            match choicesAccum cl acc with
            | .error _ => .error ()
            | .ok acc' => chunksAccum rest acc'
        else chunksAccum rest acc
    | _ => chunksAccum rest acc

/-- Dispatch on the (parsed or original) `response.content` value: the
streaming-chunk list branch (lines 100–116) and the direct-choice dict
branch (lines 117–129). -/
def respDispatch (rc : JValue) (log_data : JValue) :
    Except (List Turn) (List Turn) :=
  match rc with
  | .arr chunks =>
    match chunksAccum chunks "" with
    | .error _ => .error []
    | .ok acc =>
      if acc != "" then
        .ok [⟨.str "assistant", .str acc, log_data.pyGet "timestamp"⟩]
      else .ok []
  | .obj fs =>
    match JValue.lookup "choices" fs with
    | none => .ok []
    | some choices =>
      match choices with
      | .arr (choice :: _) =>
        match choice with
        | .obj cfs =>
          match JValue.lookup "message" cfs with
          | none => .ok []
          | some msg =>
            match msg with
            | .obj mfs =>
              match JValue.lookup "content" mfs with
              | none => .ok []
              | some c => .ok [⟨.str "assistant", c, log_data.pyGet "timestamp"⟩]
            | _ => .ok []
        | _ => .ok []
      | _ => .ok []
  | _ => .ok []

/-- The response branch of `extract_conversation` (lines 83–129): a
string `response.content` that fails to parse becomes a single verbatim
assistant turn and suppresses the later branches (`response_content =
None`); otherwise the parsed (or original) value is dispatched to the
streaming-chunk or direct-choice branch. -/
def responsePhase (jloads : String → Option JValue) (log_data : JValue) :
    Except (List Turn) (List Turn) :=
  match JValue.pyContains "response" log_data with
  | .error _ => .error []
  | .ok false => .ok []
  | .ok true =>
    match log_data.pySubscript "response" with
    | .error _ => .error []
    | .ok resp =>
      match JValue.pyContains "content" resp with
      | .error _ => .error []
      | .ok false => .ok []
      | .ok true =>
        match resp.pySubscript "content" with
        | .error _ => .error []
        | .ok rc0 =>
          match rc0 with
          | .str s =>
            match jloads s with
            | none => .ok [⟨.str "assistant", .str s, log_data.pyGet "timestamp"⟩]
            | some v => respDispatch v log_data
          | _ => respDispatch rc0 log_data

/-- `LogProcessor.extract_conversation`: both phases under the one
`try`/`except` — a raise in the request phase skips the response phase;
either way the turns accumulated before any raise are returned. -/
def extract_conversation (jloads : String → Option JValue) (log_data : JValue) :
    List Turn :=
  match requestPhase jloads log_data with
  | .error ts => ts
  | .ok ts =>
    match responsePhase jloads log_data with
    | .error ts2 => ts ++ ts2
    | .ok ts2 => ts ++ ts2

/-! ## `log_processor.py`: metadata extraction and per-file processing -/

/-- The `request.content.model` chain of `extract_metadata` (lines
156–157): the model value, `none` when a guard is false, and an error
when a subscript or membership test raises (the `except` then keeps the
keys assigned so far). -/
def modelChain (log_data : JValue) : Except Unit (Option JValue) :=
  match JValue.pyContains "request" log_data with
  | .error _ => .error ()
  | .ok false => .ok none
  | .ok true =>
    match log_data.pySubscript "request" with
    | .error _ => .error ()
    | .ok req =>
      match JValue.pyContains "content" req with
      | .error _ => .error ()
      | .ok false => .ok none
      | .ok true =>
        match req.pySubscript "content" with
        | .error _ => .error ()
        | .ok rc =>
          match JValue.pyContains "model" rc with
          | .error _ => .error ()
          | .ok false => .ok none
          | .ok true =>
            match rc.pySubscript "model" with
            | .error _ => .error ()
            | .ok m => .ok (some m)

/-- `LogProcessor.extract_metadata`: builds the metadata dict inside one
`try`/`except`; on a raise the keys already assigned are kept.  The
three filename-derived keys are assigned unconditionally after the
optional `proxy_time_consumed` key. -/
def extract_metadata (log_data : JValue) (filename : String) :
    List (String × JValue) :=
  match JValue.pyContains "proxy-time-consumed" log_data with
  | .error _ => []
  | .ok hasPtc =>
    match (if hasPtc then (log_data.pySubscript "proxy-time-consumed").map some
           else .ok none : Except Unit (Option JValue)) with
    | .error _ => []
    | .ok ptc =>
      let m1 := (match ptc with
        | some v => [("proxy_time_consumed", v)]
        | none => []) ++
        [("ip_address", JValue.str (extract_ip_address (basename filename))),
         ("machine_id", JValue.str (extract_machine_id (basename filename))),
         ("editor_version", JValue.str (extract_editor_version (basename filename)))]
      match modelChain log_data with
      | .error _ => m1
      | .ok none => m1
      | .ok (some mv) => m1 ++ [("model", mv)]

/-- One unit of work from discovery: the dict
`{'path': ..., 'user_id': ...}`. -/
structure FileInfo where
  path : String
  user_id : String
  deriving Repr, DecidableEq

/-- The sink-ready document built by `process_file`. -/
structure Document where
  timestamp : JValue
  file_name : String
  user_id : String
  conversation : List Turn
  metadata : List (String × JValue)
  deriving Repr

/-- `LogProcessor.process_file`: loads the file's JSON (the abstracted
`load` returns `none` when `utils.load_json_file` raises), then builds
the document; a non-dict top level makes `log_data.get` raise, which the
`except` turns into `None`.  `now` abstracts
`datetime.now().isoformat()`. -/
def process_file (jloads : String → Option JValue) (load : String → Option JValue)
    (now : String) (fi : FileInfo) : Option Document :=
  match load fi.path with
  | none => none
  | some log_data =>
    match log_data with
    | .obj fs =>
      some {
        timestamp := (match JValue.lookup "timestamp" fs with
          | some v => v
          | none => .str now),
        file_name := basename fi.path,
        user_id := fi.user_id,
        conversation := extract_conversation jloads (.obj fs),
        metadata := extract_metadata (.obj fs) (basename fi.path) }
    | _ => none

/-! ## `log_processor.py`: discovery -/

/-- One configured source directory as seen by `os.walk`: whether
`os.path.exists` holds, and the full paths of the files the walk
yields. -/
structure SourceDir where
  path : String
  path_exists : Bool
  files : List String
  deriving Repr

/-- The unordered candidate list built by the directory loops of
`get_unprocessed_files` (lines 28–44): `.json` files of existing
roots whose full path is not in the processed set, each tagged with the
root's user id. -/
def unprocessedList (dirs : List SourceDir) (processed : List String) :
    List FileInfo :=
  dirs.foldl (fun acc d =>
    if d.path_exists then
      acc ++ ((d.files.filter
        (fun f => strEndsWith f ".json" && !(processed.contains f))).map
        (fun f => ⟨f, get_user_id_from_path d.path⟩))
    else acc) []

/-- `LogProcessor.get_unprocessed_files`: candidates sorted by
modification time ascending (Python's stable sort), truncated to
`max_files` when that is a positive number. -/
def get_unprocessed_files (dirs : List SourceDir) (processed : List String)
    (mtime : String → Nat) (max_files : Option Int) : List FileInfo :=
  let sorted := (unprocessedList dirs processed).mergeSort
    (fun a b => decide (mtime a.path ≤ mtime b.path))
  match max_files with
  | some m => if 0 < m then sorted.take m.toNat else sorted
  | none => sorted

/-! ## `log_processor.py` / `main.py`: the pipeline run -/

/-- The abstracted environment of one run: `json.loads`, file loading,
wall-clock time and `os.path.getmtime`. -/
structure Env where
  jloads : String → Option JValue
  load : String → Option JValue
  now : String
  mtime : String → Nat

/-- `LogProcessor.__init__`: captures the source directories and reads
the processed-file ledger once, into the in-memory set. -/
structure LogProcessor where
  source_dirs : List SourceDir
  processed_files : List String

/-- Construct a `LogProcessor` from the current durable ledger. -/
def LogProcessor.init (dirs : List SourceDir) (ledger : Ledger) : LogProcessor :=
  ⟨dirs, get_processed_files ledger⟩

/-- Observable pipeline events for ordering claims: one ledger append,
or the single bulk-write submission. -/
inductive Event where
  | append : String → Event
  | bulkWrite : List Document → Event
  deriving Repr

/-- Whether an event is a ledger append. -/
def Event.isAppend : Event → Bool
  | .append _ => true
  | _ => false

/-- Whether an event is the bulk-write submission. -/
def Event.isBulk : Event → Bool
  | .bulkWrite _ => true
  | _ => false

/-- The evolving state of one run: documents collected so far, the
durable ledger file, and the emitted event trace. -/
structure RunState where
  documents : List Document
  ledger : Ledger
  events : List Event

/-- One iteration of the `for file_info in files_to_process` loop of
`process_files` (lines 205–220): a produced document is collected and
its path immediately appended to the ledger file; a `None` result skips
both. -/
def process_files_step (env : Env) (st : RunState) (fi : FileInfo) : RunState :=
  match process_file env.jloads env.load env.now fi with
  | some d => ⟨st.documents ++ [d],
               mark_file_as_processed st.ledger fi.path,
               st.events ++ [.append fi.path]⟩
  | none => st

/-- The whole `process_files` loop over the discovered files. -/
def process_files_loop (env : Env) : List FileInfo → RunState → RunState
  | [], st => st
  | fi :: rest, st => process_files_loop env rest (process_files_step env st fi)

/-- `LogProcessor.process_files`: discover against the instance's
in-memory processed set, then run the per-file loop against the current
durable ledger. -/
def process_files (env : Env) (p : LogProcessor) (max_files : Option Int)
    (ledger : Ledger) : RunState :=
  process_files_loop env
    (get_unprocessed_files p.source_dirs p.processed_files env.mtime max_files)
    ⟨[], ledger, []⟩

/-- `main.process_logs`: build a fresh `LogProcessor` from the current
ledger, process up to `MAX_FILES_PER_BATCH` files, and submit the single
bulk write afterwards when any document was produced.  The sink's
outcome (`some n` accepted documents, `none` for a raise) is recorded
but — like in the source — nothing further depends on it. -/
def process_logs (env : Env) (dirs : List SourceDir)
    (sink : List Document → Option Nat) (ledger : Ledger) :
    RunState × Option Nat :=
  let p := LogProcessor.init dirs ledger
  let st := process_files env p (some MAX_FILES_PER_BATCH) ledger
  if st.documents.isEmpty then (st, none)
  else ({ st with events := st.events ++ [.bulkWrite st.documents] },
        sink st.documents)

/-- One scheduled invocation of `process_logs`: its environment,
directory contents and sink behaviour at that moment. -/
structure RunSpec where
  env : Env
  dirs : List SourceDir
  sink : List Document → Option Nat

/-- Consecutive pipeline runs (each one constructing a fresh
`LogProcessor`), threading the durable ledger from run to run. -/
def iterateRuns : List RunSpec → Ledger → List RunState
  | [], _ => []
  | r :: rest, ledger =>
    let st := (process_logs r.env r.dirs r.sink ledger).1
    st :: iterateRuns rest st.ledger

/-! ## `es_client.py`: index naming -/

/-- `ESClient.get_index_name`: despite its docstring promising a
date-based suffix, the body returns the bare prefix (the computed
`today` is unused). -/
def get_index_name : String := ES_INDEX_PREFIX

/-- The index name `bulk_index` passes to `create_index_if_not_exists`
and puts in every bulk action (lines 137–150). -/
def bulk_index_index_name : String := get_index_name

/-- The index name `index_document` and `create_index_if_not_exists`
address (lines 114–117). -/
def create_index_index_name : String := get_index_name

/-- The index argument `search_by_user` passes to `es.search`
(line 194): `f"{config.ES_INDEX_PREFIX}-*"`. -/
def search_index_arg : String := ES_INDEX_PREFIX ++ "-*"

/-- Modelled from the spec: Elasticsearch index-pattern matching for the
patterns this client uses — a trailing `*` matches any (possibly empty)
suffix, a pattern without `*` matches only itself. -/
def esPatternMatches (pat name : String) : Bool :=
  if strEndsWith pat "*" then decide (pat.data.dropLast <+: name.data)
  else pat == name

/-! ## Helper lemmas -/

theorem lookup_isSome_of_any {k : String} :
    ∀ {fs : List (String × JValue)}, fs.any (fun p => p.1 == k) = true →
    ∃ v, JValue.lookup k fs = some v
  | [], h => by simp at h
  | (k', v') :: rest, h => by
    by_cases hk : k' = k
    · exact ⟨v', by simp [JValue.lookup, hk]⟩
    · have : rest.any (fun p => p.1 == k) = true := by
        simpa [List.any_cons, hk] using h
      obtain ⟨v, hv⟩ := lookup_isSome_of_any this
      exact ⟨v, by simpa [JValue.lookup, hk] using hv⟩

theorem any_of_lookup {k : String} :
    ∀ {fs : List (String × JValue)} {v : JValue}, JValue.lookup k fs = some v →
    fs.any (fun p => p.1 == k) = true
  | [], _, h => by simp [JValue.lookup] at h
  | (k', v') :: rest, v, h => by
    by_cases hk : k' = k
    · simp [List.any_cons, hk]
    · have h' : JValue.lookup k rest = some v := by
        simpa [JValue.lookup, hk] using h
      simpa [List.any_cons, hk] using any_of_lookup h'

/-- `getD`-style reading of a guarded `parts[i]!`. -/
theorem decoder_token (parts : List String) (i : Nat) :
    (if parts.length > i then parts[i]! else "unknown") = parts.getD i "unknown" := by
  by_cases h : parts.length > i
  · rw [if_pos h, List.getD_eq_getElem parts "unknown" h, getElem!_pos parts i h]
  · rw [if_neg h, List.getD_eq_default parts "unknown" (by omega)]

/-- The paths of the discovered files whose processing produced a
document — exactly the paths `process_files` appends to the ledger. -/
def markedOf (env : Env) (files : List FileInfo) : List String :=
  (files.filter (fun fi => (process_file env.jloads env.load env.now fi).isSome)).map
    FileInfo.path

/-- The documents produced by the discovered files, in order. -/
def docsOf (env : Env) (files : List FileInfo) : List Document :=
  files.filterMap (fun fi => process_file env.jloads env.load env.now fi)

/-- The files one `process_logs` run considers: discovery against the
ledger as read at the run's start, capped at `MAX_FILES_PER_BATCH`. -/
def runFiles (env : Env) (dirs : List SourceDir) (ledger : Ledger) : List FileInfo :=
  get_unprocessed_files dirs (get_processed_files ledger) env.mtime
    (some MAX_FILES_PER_BATCH)

theorem process_files_step_none (env : Env) {st : RunState} {fi : FileInfo}
    (h : process_file env.jloads env.load env.now fi = none) :
    process_files_step env st fi = st := by
  rw [process_files_step, h]

theorem process_files_step_some (env : Env) {st : RunState} {fi : FileInfo}
    {d : Document} (h : process_file env.jloads env.load env.now fi = some d) :
    process_files_step env st fi
      = ⟨st.documents ++ [d], mark_file_as_processed st.ledger fi.path,
         st.events ++ [.append fi.path]⟩ := by
  rw [process_files_step, h]

theorem process_files_loop_eq (env : Env) :
    ∀ (files : List FileInfo) (st : RunState),
    process_files_loop env files st
      = ⟨st.documents ++ docsOf env files,
         st.ledger ++ markedOf env files,
         st.events ++ (markedOf env files).map Event.append⟩
  | [], st => by
    simp [process_files_loop, docsOf, markedOf]
  | fi :: rest, st => by
    rcases h : process_file env.jloads env.load env.now fi with _ | d
    · rw [process_files_loop, process_files_step_none env h,
        process_files_loop_eq env rest st]
      simp [docsOf, markedOf, List.filterMap_cons, List.filter_cons, h]
    · rw [process_files_loop, process_files_step_some env h,
        process_files_loop_eq env rest
          ⟨st.documents ++ [d], mark_file_as_processed st.ledger fi.path,
           st.events ++ [Event.append fi.path]⟩]
      simp [docsOf, markedOf, List.filterMap_cons, List.filter_cons, h,
        mark_file_as_processed]

theorem process_files_eq (env : Env) (p : LogProcessor) (max_files : Option Int)
    (ledger : Ledger) :
    process_files env p max_files ledger
      = ⟨docsOf env (get_unprocessed_files p.source_dirs p.processed_files
            env.mtime max_files),
         ledger ++ markedOf env (get_unprocessed_files p.source_dirs
            p.processed_files env.mtime max_files),
         (markedOf env (get_unprocessed_files p.source_dirs p.processed_files
            env.mtime max_files)).map Event.append⟩ := by
  rw [process_files, process_files_loop_eq]
  simp

theorem process_logs_state_eq (env : Env) (dirs : List SourceDir)
    (sink : List Document → Option Nat) (ledger : Ledger) :
    (process_logs env dirs sink ledger).1
      = ⟨docsOf env (runFiles env dirs ledger),
         ledger ++ markedOf env (runFiles env dirs ledger),
         (markedOf env (runFiles env dirs ledger)).map Event.append
           ++ (if (docsOf env (runFiles env dirs ledger)).isEmpty then []
               else [.bulkWrite (docsOf env (runFiles env dirs ledger))])⟩ := by
  rw [process_logs]
  rw [show process_files env (LogProcessor.init dirs ledger)
        (some MAX_FILES_PER_BATCH) ledger
      = ⟨docsOf env (runFiles env dirs ledger),
         ledger ++ markedOf env (runFiles env dirs ledger),
         (markedOf env (runFiles env dirs ledger)).map Event.append⟩
    from process_files_eq env _ _ ledger]
  rcases h : (docsOf env (runFiles env dirs ledger)).isEmpty with _ | _ <;>
    simp [h]

/-- Membership in the pre-sort candidate list forces the filter
predicate of `get_unprocessed_files`. -/
theorem mem_unprocessedList {dirs : List SourceDir} {processed : List String}
    {fi : FileInfo} (h : fi ∈ unprocessedList dirs processed) :
    strEndsWith fi.path ".json" = true ∧ processed.contains fi.path = false := by
  unfold unprocessedList at h
  suffices H : ∀ (ds : List SourceDir) (acc : List FileInfo),
      fi ∈ ds.foldl (fun acc d =>
        if d.path_exists then
          acc ++ ((d.files.filter
            (fun f => strEndsWith f ".json" && !(processed.contains f))).map
            (fun f => ⟨f, get_user_id_from_path d.path⟩))
        else acc) acc →
      fi ∈ acc ∨ (strEndsWith fi.path ".json" = true
        ∧ processed.contains fi.path = false) by
    rcases H dirs [] h with h' | h'
    · simp at h'
    · exact h'
  intro ds
  induction ds with
  | nil => intro acc h'; exact .inl h'
  | cons d rest ih =>
    intro acc h'
    rw [List.foldl_cons] at h'
    rcases ih _ h' with h'' | h''
    · by_cases hex : d.path_exists
      · rw [if_pos hex] at h''
        rcases List.mem_append.mp h'' with h3 | h3
        · exact .inl h3
        · obtain ⟨f, hf, hfi⟩ := List.mem_map.mp h3
          obtain ⟨_, hpred⟩ := List.mem_filter.mp hf
          refine .inr ?_
          rw [← hfi]
          simpa using hpred
      · rw [if_neg hex] at h''
        exact .inl h''
    · exact .inr h''

/-- Membership in the discovery result forces membership in the
candidate list (sorting permutes, truncation selects). -/
theorem mem_of_mem_get_unprocessed {dirs : List SourceDir}
    {processed : List String} {mtime : String → Nat} {max_files : Option Int}
    {fi : FileInfo} (h : fi ∈ get_unprocessed_files dirs processed mtime max_files) :
    fi ∈ unprocessedList dirs processed := by
  unfold get_unprocessed_files at h
  have hsort : ∀ x, x ∈ (unprocessedList dirs processed).mergeSort
      (fun a b => decide (mtime a.path ≤ mtime b.path)) →
      x ∈ unprocessedList dirs processed := by
    intro x hx
    exact (List.mergeSort_perm (unprocessedList dirs processed) _).mem_iff.mp hx
  rcases max_files with _ | m
  · exact hsort _ h
  · by_cases hm : 0 < m
    · simp only [hm, if_true] at h
      exact hsort _ (List.mem_of_mem_take h)
    · simp only [hm, if_false] at h
      exact hsort _ h

/-- A path already in the processed set is never among the discovered
files. -/
theorem not_selected_of_processed {dirs : List SourceDir}
    {processed : List String} {mtime : String → Nat} {max_files : Option Int}
    {p : String} (hp : p ∈ processed) :
    ∀ fi ∈ get_unprocessed_files dirs processed mtime max_files, fi.path ≠ p := by
  intro fi hfi heq
  have h := (mem_unprocessedList (mem_of_mem_get_unprocessed hfi)).2
  rw [heq] at h
  have hc : processed.contains p = true := List.elem_iff.mpr hp
  rw [hc] at h
  exact Bool.noConfusion h

/-- `process_file`'s success or failure depends only on the file's path
(the load result and its top-level shape), not on the user id. -/
theorem process_file_isSome_congr (jl ld : String → Option JValue) (now : String)
    {fi fj : FileInfo} (h : fi.path = fj.path) :
    (process_file jl ld now fi).isSome = (process_file jl ld now fj).isSome := by
  unfold process_file
  rw [h]
  rcases ld fj.path with _ | v
  · rfl
  · rcases v <;> rfl

/-! ## Concrete fixtures used by witnesses and counterexamples -/

/-- A `json.loads` that rejects every string. -/
def jloadsNone : String → Option JValue := fun _ => none

/-- A log file whose JSON loads to a dict. -/
def fileG : String := "/logs/alice/chat-panel/g.json"

/-- A log file whose JSON fails to load. -/
def fileB : String := "/logs/alice/chat-panel/b.json"

/-- The parsed content of `fileG`. -/
def recG : JValue := .obj [("timestamp", .str "T")]

/-- A concrete environment: `fileG` loads, `fileB` raises, `fileG` is
older. -/
def envB : Env :=
  { jloads := jloadsNone,
    load := fun p => if p = fileG then some recG else none,
    now := "N",
    mtime := fun p => if p = fileG then 1 else 2 }

/-- One existing source directory holding both files. -/
def dirsB : List SourceDir := [⟨"/logs/alice/chat-panel", true, [fileG, fileB]⟩]

/-- A sink whose bulk write fails entirely. -/
def sinkFail : List Document → Option Nat := fun _ => none

theorem runFilesB_eval :
    runFiles envB dirsB [] = [⟨fileG, "alice"⟩, ⟨fileB, "alice"⟩] := by
  rw [runFiles, get_unprocessed_files,
    show unprocessedList dirsB (get_processed_files [])
      = [⟨fileG, "alice"⟩, ⟨fileB, "alice"⟩] from rfl]
  simp [List.mergeSort, List.merge, envB, fileG, fileB, MAX_FILES_PER_BATCH]

theorem markedB_eval :
    markedOf envB [⟨fileG, "alice"⟩, ⟨fileB, "alice"⟩] = [fileG] := rfl

/-- The document assembled from `fileG` under `envB`. -/
def docG : Document :=
  ⟨.str "T", "g.json", "alice", [],
   [("ip_address", .str "unknown"), ("machine_id", .str "unknown"),
    ("editor_version", .str "unknown")]⟩

theorem eventsB_eval :
    (process_logs envB dirsB sinkFail []).1.events
      = [.append fileG, .bulkWrite [docG]] := by
  rw [process_logs_state_eq, runFilesB_eval]
  rfl

/-- The run-ordering C2 asserts: every ledger append is preceded by an
earlier bulk-write submission in the event trace. -/
def appendsAfterBulk (tr : List Event) : Prop :=
  ∀ j < tr.length, (tr.getD j (.bulkWrite [])).isAppend = true →
    ∃ i < j, (tr.getD i (.bulkWrite [])).isBulk = true

/-- The run-ordering the code actually has: every ledger append precedes
every bulk-write submission in the event trace. -/
def appendsBeforeBulk (tr : List Event) : Prop :=
  ∀ i < tr.length, ∀ j < tr.length,
    (tr.getD i (.bulkWrite [])).isAppend = true →
    (tr.getD j (.bulkWrite [])).isBulk = true → i < j

theorem appendsBeforeBulk_shape (A : List String) (docs : List Document) :
    appendsBeforeBulk (A.map Event.append
      ++ (if docs.isEmpty then [] else [.bulkWrite docs])) := by
  intro i hi j hj hApp hBulk
  by_cases hd : docs.isEmpty
  · rw [if_pos hd, List.append_nil] at hj hBulk
    rw [List.getD_eq_getElem _ _ (by simpa using hj), List.getElem_map] at hBulk
    simp [Event.isBulk] at hBulk
  · rw [if_neg hd] at hi hj hApp hBulk
    have hi' : i < A.length + 1 := by simpa using hi
    have hj' : j < A.length + 1 := by simpa using hj
    have hiA : i < A.length := by
      by_contra hiA
      have hieq : i = A.length := by omega
      have hget : (A.map Event.append ++ [Event.bulkWrite docs]).getD i
          (Event.bulkWrite []) = Event.bulkWrite docs := by
        rw [List.getD_eq_getElem _ _ hi,
          List.getElem_append_right (by simpa using hieq.ge)]
        simp [hieq]
      rw [hget] at hApp
      simp [Event.isAppend] at hApp
    have hjA : ¬ j < A.length := by
      intro hjA
      have hget : (A.map Event.append ++ [Event.bulkWrite docs]).getD j
          (Event.bulkWrite []) = Event.append (A.getD j "") := by
        rw [List.getD_eq_getElem _ _ hj,
          List.getElem_append_left (by simpa using hjA), List.getElem_map,
          List.getD_eq_getElem _ _ hjA]
      rw [hget] at hBulk
      simp [Event.isBulk] at hBulk
    omega

/-! ## Claim theorems -/

/-- C1: in every `process_logs` run, the ledger gains exactly the paths
of the discovered files whose loading and extraction/assembly produced a
document — a file whose JSON fails to load or parse to a dict is not
appended — and the appended set is entirely independent of the sink's
bulk-write outcome, so sink failure never prevents ledger marking. -/
theorem C1_ledger_iff_document_sink_independent
    (env : Env) (dirs : List SourceDir) (sink : List Document → Option Nat)
    (ledger : Ledger) :
    (process_logs env dirs sink ledger).1.ledger
      = ledger ++ markedOf env (runFiles env dirs ledger)
    ∧ (∀ fi ∈ runFiles env dirs ledger,
        (fi.path ∈ markedOf env (runFiles env dirs ledger)
          ↔ (process_file env.jloads env.load env.now fi).isSome = true))
    ∧ (∀ sink' : List Document → Option Nat,
        (process_logs env dirs sink' ledger).1.ledger
          = (process_logs env dirs sink ledger).1.ledger) := by
  refine ⟨by rw [process_logs_state_eq], ?_, ?_⟩
  · intro fi hfi
    constructor
    · intro hmem
      obtain ⟨fj, hfj, hpath⟩ := List.mem_map.mp hmem
      obtain ⟨_, hsome⟩ := List.mem_filter.mp hfj
      rw [process_file_isSome_congr env.jloads env.load env.now hpath.symm]
      simpa using hsome
    · intro hsome
      exact List.mem_map.mpr ⟨fi, List.mem_filter.mpr ⟨hfi, by simpa using hsome⟩, rfl⟩
  · intro sink'
    rw [process_logs_state_eq, process_logs_state_eq]

/-- Witness for C1 at a concrete two-file run: the loadable file is
marked, the unloadable one is not, under a sink that fails entirely. -/
theorem C1_witness :
    ((⟨fileG, "alice"⟩ : FileInfo) ∈ runFiles envB dirsB []
      → (fileG ∈ markedOf envB (runFiles envB dirsB [])
          ↔ (process_file envB.jloads envB.load envB.now
              ⟨fileG, "alice"⟩).isSome = true))
    ∧ ((⟨fileB, "alice"⟩ : FileInfo) ∈ runFiles envB dirsB []
      → (fileB ∈ markedOf envB (runFiles envB dirsB [])
          ↔ (process_file envB.jloads envB.load envB.now
              ⟨fileB, "alice"⟩).isSome = true))
    ∧ (⟨fileG, "alice"⟩ : FileInfo) ∈ runFiles envB dirsB []
    ∧ (⟨fileB, "alice"⟩ : FileInfo) ∈ runFiles envB dirsB []
    ∧ (process_logs envB dirsB sinkFail []).1.ledger
        = [] ++ markedOf envB (runFiles envB dirsB []) := by
  have h := C1_ledger_iff_document_sink_independent envB dirsB sinkFail []
  refine ⟨h.2.1 _, h.2.1 _, ?_, ?_, h.1⟩
  · rw [runFilesB_eval]; simp
  · rw [runFilesB_eval]; simp

/-- C2 as stated is false on the code: in a concrete run that produces
one document, the ledger append of that file's path is emitted before
the single bulk-write submission, so no append happens after the
bulk-write submission. -/
theorem C2_counterexample :
    (process_logs envB dirsB sinkFail []).1.events
      = [.append fileG, .bulkWrite [docG]]
    ∧ ¬ appendsAfterBulk (process_logs envB dirsB sinkFail []).1.events := by
  refine ⟨eventsB_eval, ?_⟩
  intro hclaim
  rw [eventsB_eval] at hclaim
  obtain ⟨i, hi, -⟩ := hclaim 0 (by simp) rfl
  omega

/-- C2 amended: within one run every ledger append happens before the
single bulk-write submission — each file's path is appended during the
per-file loop, and the bulk write of all assembled documents is
submitted only after that loop finishes (and only when a document
exists). -/
theorem C2_appends_precede_bulk (env : Env) (dirs : List SourceDir)
    (sink : List Document → Option Nat) (ledger : Ledger) :
    appendsBeforeBulk (process_logs env dirs sink ledger).1.events
    ∧ (process_logs env dirs sink ledger).1.events
      = (markedOf env (runFiles env dirs ledger)).map Event.append
        ++ (if (docsOf env (runFiles env dirs ledger)).isEmpty then []
            else [.bulkWrite (docsOf env (runFiles env dirs ledger))]) := by
  constructor
  · rw [process_logs_state_eq]
    exact appendsBeforeBulk_shape _ _
  · rw [process_logs_state_eq]

/-- Witness for the amended C2 at the concrete one-document run: the
append at position 0 and the bulk write at position 1 are ordered by the
theorem. -/
theorem C2_witness :
    ((process_logs envB dirsB sinkFail []).1.events.getD 0
      (.bulkWrite [])).isAppend = true
    ∧ ((process_logs envB dirsB sinkFail []).1.events.getD 1
      (.bulkWrite [])).isBulk = true
    ∧ (0 : Nat) < 1 := by
  have hApp : ((process_logs envB dirsB sinkFail []).1.events.getD 0
      (Event.bulkWrite [])).isAppend = true := by
    rw [eventsB_eval]; rfl
  have hBulk : ((process_logs envB dirsB sinkFail []).1.events.getD 1
      (Event.bulkWrite [])).isBulk = true := by
    rw [eventsB_eval]; rfl
  refine ⟨hApp, hBulk, ?_⟩
  exact (C2_appends_precede_bulk envB dirsB sinkFail []).1 0
    (by rw [eventsB_eval]; simp) 1 (by rw [eventsB_eval]; simp) hApp hBulk

/-- C3 machinery: the paths one run appends, and the ledger it leaves. -/
def runMarks (r : RunSpec) (L : Ledger) : List String :=
  markedOf r.env (runFiles r.env r.dirs L)

/-- The durable ledger after one `process_logs` run started from `L`. -/
def runLedger (r : RunSpec) (L : Ledger) : Ledger :=
  (process_logs r.env r.dirs r.sink L).1.ledger

/-- The durable ledger after a sequence of runs. -/
def ledgerAfter : List RunSpec → Ledger → Ledger
  | [], L => L
  | r :: rest, L => ledgerAfter rest (runLedger r L)

theorem runLedger_eq (r : RunSpec) (L : Ledger) :
    runLedger r L = L ++ runMarks r L := by
  rw [runLedger, process_logs_state_eq, runMarks]

theorem mem_ledgerAfter : ∀ (runs : List RunSpec) (L : Ledger) (p : String),
    p ∈ L → p ∈ ledgerAfter runs L
  | [], _, _, hp => hp
  | r :: rest, L, p, hp => by
    rw [ledgerAfter]
    exact mem_ledgerAfter rest _ p (by rw [runLedger_eq]; exact List.mem_append_left _ hp)

theorem mem_runMarks_path {r : RunSpec} {L : Ledger} {p : String}
    (hp : p ∈ runMarks r L) :
    ∃ fi ∈ runFiles r.env r.dirs L, fi.path = p := by
  obtain ⟨fi, hfi, hpath⟩ := List.mem_map.mp hp
  exact ⟨fi, (List.mem_filter.mp hfi).1, hpath⟩

/-- C3: a path in the dedup ledger before a run starts is never selected
by that run's discovery; consequently, across any sequence of runs (each
constructing a fresh `LogProcessor` from the durable ledger, as after a
restart), a path marked by one run is never marked again by any later
run — each file is in at most one completed run's document set. -/
theorem C3_dedup_across_runs :
    (∀ (dirs : List SourceDir) (processed : List String) (mtime : String → Nat)
        (max_files : Option Int) (p : String), p ∈ processed →
        ∀ fi ∈ get_unprocessed_files dirs processed mtime max_files, fi.path ≠ p)
    ∧ (∀ (pre mid : List RunSpec) (r₁ r₂ : RunSpec) (ledger : Ledger) (p : String),
        p ∈ runMarks r₁ (ledgerAfter pre ledger) →
        p ∉ runMarks r₂ (ledgerAfter mid (runLedger r₁ (ledgerAfter pre ledger)))) := by
  constructor
  · intro dirs processed mtime max_files p hp
    exact not_selected_of_processed hp
  · intro pre mid r₁ r₂ ledger p hp hcontra
    have hpL : p ∈ runLedger r₁ (ledgerAfter pre ledger) := by
      rw [runLedger_eq]
      exact List.mem_append_right _ hp
    have hpL2 : p ∈ ledgerAfter mid (runLedger r₁ (ledgerAfter pre ledger)) :=
      mem_ledgerAfter mid _ p hpL
    obtain ⟨fi, hfi, hpath⟩ := mem_runMarks_path hcontra
    exact not_selected_of_processed hpL2 fi hfi hpath

/-- A single concrete run specification over the two-file fixture. -/
def runB : RunSpec := ⟨envB, dirsB, sinkFail⟩

/-- Witness for C3: `fileG` is ledgered, so never selected against that
ledger; and the path marked by the first concrete run is not marked by a
second run starting from the ledger the first one left. -/
theorem C3_witness :
    (fileG ∈ ([fileG] : List String)
      ∧ ∀ fi ∈ get_unprocessed_files dirsB [fileG] envB.mtime
          (some MAX_FILES_PER_BATCH), fi.path ≠ fileG)
    ∧ fileG ∈ runMarks runB (ledgerAfter [] [])
    ∧ fileG ∉ runMarks runB (ledgerAfter [] (runLedger runB (ledgerAfter [] []))) := by
  have hp : fileG ∈ runMarks runB (ledgerAfter [] []) := by
    show fileG ∈ runMarks runB []
    rw [runMarks, show runB.env = envB from rfl, show runB.dirs = dirsB from rfl,
      runFilesB_eval, markedB_eval]
    simp
  exact ⟨⟨by simp,
      C3_dedup_across_runs.1 dirsB [fileG] envB.mtime (some MAX_FILES_PER_BATCH)
        fileG (by simp)⟩,
    hp, C3_dedup_across_runs.2 [] [] runB runB [] fileG hp⟩

/-- C10: marking a file as processed appends to the durable ledger file
but leaves the in-memory processed set of an already-constructed
`LogProcessor` unchanged — its discovery keeps excluding exactly the
construction-time ledger.  A second `process_files` call on the same
instance therefore reprocesses and re-marks the very same files, while
a fresh `LogProcessor` built from the updated ledger excludes them. -/
theorem C10_inmemory_set_frozen_at_construction (env : Env)
    (dirs : List SourceDir) (ledger : Ledger) (max_files : Option Int) :
    (LogProcessor.init dirs ledger).processed_files = get_processed_files ledger
    ∧ (process_files env (LogProcessor.init dirs ledger) max_files ledger).ledger
      = ledger ++ markedOf env (get_unprocessed_files dirs
          (get_processed_files ledger) env.mtime max_files)
    ∧ (process_files env (LogProcessor.init dirs ledger) max_files
        (process_files env (LogProcessor.init dirs ledger) max_files
          ledger).ledger).documents
      = (process_files env (LogProcessor.init dirs ledger) max_files
          ledger).documents
    ∧ (process_files env (LogProcessor.init dirs ledger) max_files
        (process_files env (LogProcessor.init dirs ledger) max_files
          ledger).ledger).ledger
      = (process_files env (LogProcessor.init dirs ledger) max_files
          ledger).ledger
        ++ markedOf env (get_unprocessed_files dirs
            (get_processed_files ledger) env.mtime max_files)
    ∧ (∀ q ∈ markedOf env (get_unprocessed_files dirs
          (get_processed_files ledger) env.mtime max_files),
        ∀ fi ∈ get_unprocessed_files dirs
          (get_processed_files (process_files env (LogProcessor.init dirs ledger)
            max_files ledger).ledger) env.mtime max_files,
        fi.path ≠ q) := by
  refine ⟨rfl, ?_, ?_, ?_, ?_⟩
  · rw [process_files_eq]; rfl
  · rw [process_files_eq, process_files_eq]
  · rw [process_files_eq, process_files_eq]; rfl
  · intro q hq fi hfi
    have hqL : q ∈ get_processed_files (process_files env
        (LogProcessor.init dirs ledger) max_files ledger).ledger := by
      rw [process_files_eq]
      exact List.mem_append_right _ hq
    exact not_selected_of_processed hqL fi hfi

/-- Witness for C10: on the concrete fixture, a second `process_files`
call on the same instance reproduces the first call's documents (it
reselects `fileG`), while discovery against the updated ledger never
selects `fileG` again. -/
theorem C10_witness :
    (process_files envB (LogProcessor.init dirsB []) (some MAX_FILES_PER_BATCH)
        (process_files envB (LogProcessor.init dirsB [])
          (some MAX_FILES_PER_BATCH) []).ledger).documents
      = (process_files envB (LogProcessor.init dirsB [])
          (some MAX_FILES_PER_BATCH) []).documents
    ∧ fileG ∈ markedOf envB (get_unprocessed_files dirsB (get_processed_files [])
        envB.mtime (some MAX_FILES_PER_BATCH))
    ∧ (∀ fi ∈ get_unprocessed_files dirsB
        (get_processed_files (process_files envB (LogProcessor.init dirsB [])
          (some MAX_FILES_PER_BATCH) []).ledger) envB.mtime
        (some MAX_FILES_PER_BATCH),
        fi.path ≠ fileG) := by
  have h := C10_inmemory_set_frozen_at_construction envB dirsB []
    (some MAX_FILES_PER_BATCH)
  have hq : fileG ∈ markedOf envB (get_unprocessed_files dirsB
      (get_processed_files []) envB.mtime (some MAX_FILES_PER_BATCH)) := by
    rw [show get_unprocessed_files dirsB (get_processed_files []) envB.mtime
        (some MAX_FILES_PER_BATCH) = [⟨fileG, "alice"⟩, ⟨fileB, "alice"⟩]
      from runFilesB_eval, markedB_eval]
    simp
  exact ⟨h.2.2.1, hq, h.2.2.2.2 fileG hq⟩

/-- C7: with a positive batch limit, discovery returns a prefix of the
mtime-ascending ordering of the not-yet-ledgered `.json` candidates:
the result is sorted oldest-first, it together with the unselected rest
permutes the full candidate list, every selected file is at least as old
as every unselected one, and exactly `min limit candidates` files are
selected. -/
theorem C7_discovery_sorted_truncated (dirs : List SourceDir)
    (processed : List String) (mtime : String → Nat) (m : Int) (hm : 0 < m) :
    ∃ rest : List FileInfo,
      ((get_unprocessed_files dirs processed mtime (some m)) ++ rest).Perm
        (unprocessedList dirs processed)
      ∧ List.Pairwise (fun a b => mtime a.path ≤ mtime b.path)
          (get_unprocessed_files dirs processed mtime (some m))
      ∧ (∀ a ∈ get_unprocessed_files dirs processed mtime (some m),
          ∀ b ∈ rest, mtime a.path ≤ mtime b.path)
      ∧ (get_unprocessed_files dirs processed mtime (some m)).length
          = min m.toNat (unprocessedList dirs processed).length
      ∧ (∀ fi ∈ get_unprocessed_files dirs processed mtime (some m),
          strEndsWith fi.path ".json" = true
            ∧ processed.contains fi.path = false) := by
  have hres : get_unprocessed_files dirs processed mtime (some m)
      = ((unprocessedList dirs processed).mergeSort
          (fun a b => decide (mtime a.path ≤ mtime b.path))).take m.toNat := by
    simp [get_unprocessed_files, hm]
  have hsorted : ((unprocessedList dirs processed).mergeSort
      (fun a b => decide (mtime a.path ≤ mtime b.path))).Pairwise
        (fun a b => mtime a.path ≤ mtime b.path) := by
    have h := @List.sorted_mergeSort FileInfo
      (fun a b : FileInfo => decide (mtime a.path ≤ mtime b.path))
      (fun a b c hab hbc => by
        simp only [decide_eq_true_eq] at hab hbc ⊢
        exact Nat.le_trans hab hbc)
      (fun a b => by
        simp only [Bool.or_eq_true, decide_eq_true_eq]
        exact Nat.le_total _ _)
      (unprocessedList dirs processed)
    exact h.imp (fun hab => by simpa using hab)
  refine ⟨((unprocessedList dirs processed).mergeSort
      (fun a b => decide (mtime a.path ≤ mtime b.path))).drop m.toNat,
    ?_, ?_, ?_, ?_, ?_⟩
  · rw [hres, List.take_append_drop]
    exact List.mergeSort_perm _ _
  · rw [hres]
    exact hsorted.sublist (List.take_sublist _ _)
  · rw [hres]
    have h := hsorted
    rw [← List.take_append_drop m.toNat ((unprocessedList dirs processed).mergeSort
      (fun a b => decide (mtime a.path ≤ mtime b.path)))] at h
    exact (List.pairwise_append.mp h).2.2
  · rw [hres, List.length_take, List.length_mergeSort]
  · intro fi hfi
    rw [hres] at hfi
    have h1 : fi ∈ (unprocessedList dirs processed).mergeSort
        (fun a b => decide (mtime a.path ≤ mtime b.path)) :=
      List.mem_of_mem_take hfi
    have h2 : fi ∈ unprocessedList dirs processed :=
      (List.mergeSort_perm _ _).mem_iff.mp h1
    exact mem_unprocessedList h2

/-- Witness for C7 at the concrete two-file fixture with limit 1: the
hypothesis `0 < 1` is discharged and the theorem instantiated. -/
theorem C7_witness :
    ∃ rest : List FileInfo,
      ((get_unprocessed_files dirsB [] envB.mtime (some 1)) ++ rest).Perm
        (unprocessedList dirsB [])
      ∧ List.Pairwise (fun a b => envB.mtime a.path ≤ envB.mtime b.path)
          (get_unprocessed_files dirsB [] envB.mtime (some 1))
      ∧ (∀ a ∈ get_unprocessed_files dirsB [] envB.mtime (some 1),
          ∀ b ∈ rest, envB.mtime a.path ≤ envB.mtime b.path)
      ∧ (get_unprocessed_files dirsB [] envB.mtime (some 1)).length
          = min (1 : Int).toNat (unprocessedList dirsB []).length
      ∧ (∀ fi ∈ get_unprocessed_files dirsB [] envB.mtime (some 1),
          strEndsWith fi.path ".json" = true
            ∧ ([] : List String).contains fi.path = false) :=
  C7_discovery_sorted_truncated dirsB [] envB.mtime 1 (by decide)

/-- The record refuting C5 as stated: its `response.content` is a
non-JSON string, but its `request.content.messages` is a non-iterable
number, so the request branch raises and the shared `try`/`except`
aborts extraction before the response branch runs. -/
def c5BadRecord : JValue :=
  .obj [("request", .obj [("content", .obj [("messages", .num 7)])]),
        ("response", .obj [("content", .str "plain text reply")])]

/-- C5 as stated (for every record with a non-JSON string
`response.content`) is false on the code: `c5BadRecord` has exactly that
response shape — in isolation the response branch would produce the one
verbatim assistant turn — yet extraction yields no turn at all, because
the wrong-typed request branch raises first. -/
theorem C5_counterexample :
    JValue.lookup "content" [("content", JValue.str "plain text reply")]
      = some (.str "plain text reply")
    ∧ jloadsNone "plain text reply" = none
    ∧ responsePhase jloadsNone c5BadRecord
        = .ok [⟨.str "assistant", .str "plain text reply", .null⟩]
    ∧ extract_conversation jloadsNone c5BadRecord = [] :=
  ⟨rfl, rfl, rfl, rfl⟩

/-- C5 amended: when `response.content` is a string that fails to parse
as JSON and the request branch completes without raising, extraction
appends exactly one assistant turn carrying that raw string verbatim
and the record's top-level timestamp, and neither the streaming-chunk
nor the direct-choice branch contributes anything further for that
record (if the request branch raises, the shared `try`/`except` aborts
extraction and the response turn is lost — see the counterexample). -/
theorem C5_nonjson_string_response_single_verbatim_turn
    (jloads : String → Option JValue) (fs rfs : List (String × JValue))
    (s : String) (reqTs : List Turn)
    (hreq : requestPhase jloads (.obj fs) = .ok reqTs)
    (hresp : JValue.lookup "response" fs = some (.obj rfs))
    (hcontent : JValue.lookup "content" rfs = some (.str s))
    (hparse : jloads s = none) :
    extract_conversation jloads (.obj fs)
      = reqTs ++ [⟨.str "assistant", .str s, (JValue.obj fs).pyGet "timestamp"⟩] := by
  have hrp : responsePhase jloads (.obj fs)
      = .ok [⟨.str "assistant", .str s, (JValue.obj fs).pyGet "timestamp"⟩] := by
    simp only [responsePhase, JValue.pyContains, any_of_lookup hresp,
      JValue.pySubscript, hresp, any_of_lookup hcontent, hcontent, hparse]
  unfold extract_conversation
  rw [hreq, hrp]

/-- The record of C5's concrete witness: a plain-text response. -/
def c5Record : List (String × JValue) :=
  [("timestamp", .str "2025-03-26T06:16:09"),
   ("response", .obj [("content", .str "plain text reply")])]

/-- Witness for C5: the concrete plain-text record produces exactly one
verbatim assistant turn. -/
theorem C5_witness :
    requestPhase jloadsNone (.obj c5Record) = .ok []
    ∧ JValue.lookup "response" c5Record
        = some (.obj [("content", .str "plain text reply")])
    ∧ JValue.lookup "content" [("content", JValue.str "plain text reply")]
        = some (.str "plain text reply")
    ∧ jloadsNone "plain text reply" = none
    ∧ extract_conversation jloadsNone (.obj c5Record)
        = [] ++ [⟨.str "assistant", .str "plain text reply",
            (JValue.obj c5Record).pyGet "timestamp"⟩] :=
  ⟨rfl, rfl, rfl, rfl,
   C5_nonjson_string_response_single_verbatim_turn jloadsNone c5Record
     [("content", JValue.str "plain text reply")] "plain text reply" []
     rfl rfl rfl rfl⟩

/-- Spec-side description (for the C6 refinement): the string one
streaming choice contributes — its `delta.content` when that is a
string, nothing otherwise. -/
def specChoiceContent : JValue → String
  | .obj cfs =>
    match JValue.lookup "delta" cfs with
    | some (.obj dfs) =>
      (match JValue.lookup "content" dfs with
      | some (.str s) => s
      | _ => "")
    | _ => ""
  | _ => ""

/-- Spec-side concatenation over one chunk's choices, in list order. -/
def specChoicesConcat : List JValue → String
  | [] => ""
  | c :: rest => specChoiceContent c ++ specChoicesConcat rest

/-- Spec-side description: the string one streaming chunk contributes —
the concatenation over its `choices` list when it has one. -/
def specChunkContent : JValue → String
  | .obj cfs =>
    match JValue.lookup "choices" cfs with
    | some (.arr cl) => specChoicesConcat cl
    | _ => ""
  | _ => ""

/-- Spec-side concatenation over the whole streaming-chunk list, in
list order. -/
def specStreamConcat : List JValue → String
  | [] => ""
  | c :: rest => specChunkContent c ++ specStreamConcat rest

theorem choicesAccum_str_elems :
    ∀ (l : List JValue), (∀ x ∈ l, ∃ s, x = JValue.str s) →
    ∀ acc, choicesAccum l acc = .ok acc
  | [], _, acc => rfl
  | x :: rest, h, acc => by
    obtain ⟨s, hs⟩ := h x (by simp)
    subst hs
    exact choicesAccum_str_elems rest (fun y hy => h y (by simp [hy])) acc

theorem specChoicesConcat_str_elems :
    ∀ (l : List JValue), (∀ x ∈ l, ∃ s, x = JValue.str s) →
    specChoicesConcat l = ""
  | [], _ => rfl
  | x :: rest, h => by
    obtain ⟨s, hs⟩ := h x (by simp)
    rw [specChoicesConcat, hs,
      specChoicesConcat_str_elems rest (fun y hy => h y (by simp [hy]))]
    simp [specChoiceContent]

theorem choicesAccum_ok :
    ∀ (cl : List JValue) (acc res : String),
    choicesAccum cl acc = .ok res → res = acc ++ specChoicesConcat cl
  | [], acc, res, h => by
    simp only [choicesAccum] at h
    cases h
    simp [specChoicesConcat, String.append_empty]
  | choice :: rest, acc, res, h => by
    have hskip : ∀ (hrec : choicesAccum rest acc = .ok res)
        (hc : specChoiceContent choice = ""),
        res = acc ++ specChoicesConcat (choice :: rest) := by
      intro hrec hc
      rw [specChoicesConcat, hc, String.empty_append]
      exact choicesAccum_ok rest acc res hrec
    rcases choice with _ | b | n | s | xs | cfs
    · exact hskip (by simpa [choicesAccum] using h) rfl
    · exact hskip (by simpa [choicesAccum] using h) rfl
    · exact hskip (by simpa [choicesAccum] using h) rfl
    · exact hskip (by simpa [choicesAccum] using h) rfl
    · exact hskip (by simpa [choicesAccum] using h) rfl
    · rcases hdelta : JValue.lookup "delta" cfs with _ | delta
      · refine hskip (by simpa [choicesAccum, hdelta] using h) ?_
        simp [specChoiceContent, hdelta]
      · rcases delta with _ | b | n | s | xs | dfs
        · exact hskip (by simpa [choicesAccum, hdelta] using h)
            (by simp [specChoiceContent, hdelta])
        · exact hskip (by simpa [choicesAccum, hdelta] using h)
            (by simp [specChoiceContent, hdelta])
        · exact hskip (by simpa [choicesAccum, hdelta] using h)
            (by simp [specChoiceContent, hdelta])
        · exact hskip (by simpa [choicesAccum, hdelta] using h)
            (by simp [specChoiceContent, hdelta])
        · exact hskip (by simpa [choicesAccum, hdelta] using h)
            (by simp [specChoiceContent, hdelta])
        · rcases hcont : JValue.lookup "content" dfs with _ | c
          · exact hskip (by simpa [choicesAccum, hdelta, hcont] using h)
              (by simp [specChoiceContent, hdelta, hcont])
          · rcases c with _ | b | n | s | xs | ofs
            · exact hskip
                (by simpa [choicesAccum, hdelta, hcont, JValue.truthy] using h)
                (by simp [specChoiceContent, hdelta, hcont])
            · rcases b with _ | _
              · exact hskip
                  (by simpa [choicesAccum, hdelta, hcont, JValue.truthy] using h)
                  (by simp [specChoiceContent, hdelta, hcont])
              · exfalso
                simp [choicesAccum, hdelta, hcont, JValue.truthy] at h
            · by_cases hn : n = 0
              · exact hskip
                  (by simpa [choicesAccum, hdelta, hcont, JValue.truthy, hn] using h)
                  (by simp [specChoiceContent, hdelta, hcont])
              · exfalso
                simp [choicesAccum, hdelta, hcont, JValue.truthy, hn] at h
            · by_cases hs : s = ""
              · refine hskip
                  (by simpa [choicesAccum, hdelta, hcont, JValue.truthy, hs] using h) ?_
                simp [specChoiceContent, hdelta, hcont, hs]
              · have hrec : choicesAccum rest (acc ++ s) = .ok res := by
                  simpa [choicesAccum, hdelta, hcont, JValue.truthy, hs] using h
                rw [specChoicesConcat,
                  show specChoiceContent (.obj cfs) = s by
                    simp [specChoiceContent, hdelta, hcont],
                  ← String.append_assoc]
                exact choicesAccum_ok rest (acc ++ s) res hrec
            · rcases xs with _ | ⟨x, xs⟩
              · exact hskip
                  (by simpa [choicesAccum, hdelta, hcont, JValue.truthy] using h)
                  (by simp [specChoiceContent, hdelta, hcont])
              · exfalso
                simp [choicesAccum, hdelta, hcont, JValue.truthy] at h
            · rcases ofs with _ | ⟨f, ofs⟩
              · exact hskip
                  (by simpa [choicesAccum, hdelta, hcont, JValue.truthy] using h)
                  (by simp [specChoiceContent, hdelta, hcont])
              · exfalso
                simp [choicesAccum, hdelta, hcont, JValue.truthy] at h

theorem chunksAccum_ok :
    ∀ (chunks : List JValue) (acc res : String),
    chunksAccum chunks acc = .ok res → res = acc ++ specStreamConcat chunks
  | [], acc, res, h => by
    simp only [chunksAccum] at h
    cases h
    simp [specStreamConcat, String.append_empty]
  | chunk :: rest, acc, res, h => by
    have hskip : ∀ (hrec : chunksAccum rest acc = .ok res)
        (hc : specChunkContent chunk = ""),
        res = acc ++ specStreamConcat (chunk :: rest) := by
      intro hrec hc
      rw [specStreamConcat, hc, String.empty_append]
      exact chunksAccum_ok rest acc res hrec
    rcases chunk with _ | b | n | s | xs | cfs
    · exact hskip (by simpa [chunksAccum] using h) rfl
    · exact hskip (by simpa [chunksAccum] using h) rfl
    · exact hskip (by simpa [chunksAccum] using h) rfl
    · exact hskip (by simpa [chunksAccum] using h) rfl
    · exact hskip (by simpa [chunksAccum] using h) rfl
    · rcases hch : JValue.lookup "choices" cfs with _ | chs
      · exact hskip (by simpa [chunksAccum, hch] using h)
          (by simp [specChunkContent, hch])
      · rcases chs with _ | b | n | s | xs | fs2
        · exact hskip
            (by simpa [chunksAccum, hch, JValue.truthy] using h)
            (by simp [specChunkContent, hch])
        · rcases b with _ | _
          · exact hskip
              (by simpa [chunksAccum, hch, JValue.truthy] using h)
              (by simp [specChunkContent, hch])
          · exfalso
            simp [chunksAccum, hch, JValue.truthy, JValue.pyIter] at h
        · by_cases hn : n = 0
          · exact hskip
              (by simpa [chunksAccum, hch, JValue.truthy, hn] using h)
              (by simp [specChunkContent, hch])
          · exfalso
            simp [chunksAccum, hch, JValue.truthy, hn, JValue.pyIter] at h
        · by_cases hs : s = ""
          · exact hskip
              (by simpa [chunksAccum, hch, JValue.truthy, hs] using h)
              (by simp [specChunkContent, hch])
          · have hca : choicesAccum (s.data.map
                (fun c => JValue.str (String.mk [c]))) acc = .ok acc :=
              choicesAccum_str_elems _
                (fun y hy => by
                  obtain ⟨c, _, hc⟩ := List.mem_map.mp hy
                  exact ⟨String.mk [c], hc.symm⟩) acc
            refine hskip ?_ (by simp [specChunkContent, hch])
            simpa [chunksAccum, hch, JValue.truthy, hs, JValue.pyIter, hca] using h
        · rcases xs with _ | ⟨x, xs'⟩
          · exact hskip
              (by simpa [chunksAccum, hch, JValue.truthy] using h)
              (by simp [specChunkContent, hch, specChoicesConcat])
          · rcases hca : choicesAccum (x :: xs') acc with e | acc'
            · exfalso
              simp [chunksAccum, hch, JValue.truthy, JValue.pyIter, hca] at h
            · have hrec : chunksAccum rest acc' = .ok res := by
                simpa [chunksAccum, hch, JValue.truthy, JValue.pyIter, hca] using h
              have hacc' : acc' = acc ++ specChoicesConcat (x :: xs') :=
                choicesAccum_ok _ _ _ hca
              rw [specStreamConcat,
                show specChunkContent (.obj cfs) = specChoicesConcat (x :: xs') by
                  simp [specChunkContent, hch],
                ← String.append_assoc, ← hacc']
              exact chunksAccum_ok rest acc' res hrec
        · rcases fs2 with _ | ⟨f, fs2'⟩
          · exact hskip
              (by simpa [chunksAccum, hch, JValue.truthy] using h)
              (by simp [specChunkContent, hch])
          · have hca : choicesAccum (JValue.str f.1
                :: fs2'.map (fun p => JValue.str p.1)) acc = .ok acc :=
              choicesAccum_str_elems _
                (fun y hy => by
                  rcases List.mem_cons.mp hy with h1 | h2
                  · exact ⟨f.1, h1⟩
                  · obtain ⟨p, _, hp⟩ := List.mem_map.mp h2
                    exact ⟨p.1, hp.symm⟩) acc
            refine hskip ?_ (by simp [specChunkContent, hch])
            simpa [chunksAccum, hch, JValue.truthy, JValue.pyIter, hca] using h

/-- The record refuting C6 as stated: its `response.content` is the
claim's own streaming-chunk list, but its `request.content.messages` is
a non-iterable number, so the request branch raises and extraction
never reaches the streaming loop. -/
def c6BadRecord : JValue :=
  .obj [("request", .obj [("content", .obj [("messages", .num 3)])]),
        ("response", .obj [("content", .arr
          [.obj [("choices", .arr [.obj [("delta",
              .obj [("content", .str "Hel")])]])],
           .obj [("choices", .arr [.obj [("delta",
              .obj [("content", .str "lo")])]])]])])]

/-- C6 as stated (for every record whose `response.content` is a list of
streaming chunks) is false on the code: `c6BadRecord` carries chunks
whose loop accumulates `"Hello"`, yet extraction yields no assistant
turn at all, because the wrong-typed request branch raises first and the
shared `try`/`except` aborts the rest of extraction. -/
theorem C6_counterexample :
    chunksAccum
      [.obj [("choices", .arr [.obj [("delta",
          .obj [("content", JValue.str "Hel")])]])],
       .obj [("choices", .arr [.obj [("delta",
          .obj [("content", JValue.str "lo")])]])]] "" = .ok "Hello"
    ∧ extract_conversation jloadsNone c6BadRecord = [] :=
  ⟨rfl, rfl⟩

/-- C6 amended: when `response.content` is a list of streaming chunks,
the request branch completes without raising, and the chunk loop
completes without a type error, the loop's accumulator is exactly the
concatenation, in list order, of the chunks' choices' string
`delta.content` values; an assistant turn carrying it is appended if and
only if the accumulator is non-empty (if the request branch raises, the
shared `try`/`except` aborts extraction and no assistant turn is
produced — see the counterexample). -/
theorem C6_streaming_chunks_concatenated
    (jloads : String → Option JValue) (fs rfs : List (String × JValue))
    (chunks : List JValue) (acc : String) (reqTs : List Turn)
    (hreq : requestPhase jloads (.obj fs) = .ok reqTs)
    (hresp : JValue.lookup "response" fs = some (.obj rfs))
    (hcontent : JValue.lookup "content" rfs = some (.arr chunks))
    (hloop : chunksAccum chunks "" = .ok acc) :
    acc = specStreamConcat chunks
    ∧ extract_conversation jloads (.obj fs)
      = reqTs ++ (if acc = "" then []
          else [⟨.str "assistant", .str acc,
            (JValue.obj fs).pyGet "timestamp"⟩]) := by
  have hacc : acc = specStreamConcat chunks := by
    have h := chunksAccum_ok chunks "" acc hloop
    rwa [String.empty_append] at h
  refine ⟨hacc, ?_⟩
  have hrp : responsePhase jloads (.obj fs)
      = .ok (if acc = "" then []
          else [⟨.str "assistant", .str acc,
            (JValue.obj fs).pyGet "timestamp"⟩]) := by
    simp only [responsePhase, JValue.pyContains, any_of_lookup hresp,
      JValue.pySubscript, hresp, any_of_lookup hcontent, hcontent]
    simp only [respDispatch, hloop]
    by_cases hA : acc = ""
    · simp [hA]
    · simp [hA]
  unfold extract_conversation
  rw [hreq, hrp]

/-- The two streaming chunks of the claim's concrete example. -/
def c6Chunks : List JValue :=
  [.obj [("choices", .arr [.obj [("delta", .obj [("content", .str "Hel")])]])],
   .obj [("choices", .arr [.obj [("delta", .obj [("content", .str "lo")])]])]]

/-- The record of C6's concrete witness. -/
def c6Record : List (String × JValue) :=
  [("timestamp", .str "T6"), ("response", .obj [("content", .arr c6Chunks)])]

/-- Witness for C6: the chunks `"Hel"`, `"lo"` reconstruct one assistant
turn with content `"Hello"`. -/
theorem C6_witness :
    requestPhase jloadsNone (.obj c6Record) = .ok []
    ∧ JValue.lookup "response" c6Record
        = some (.obj [("content", .arr c6Chunks)])
    ∧ JValue.lookup "content" [("content", JValue.arr c6Chunks)]
        = some (.arr c6Chunks)
    ∧ chunksAccum c6Chunks "" = .ok "Hello"
    ∧ ("Hello" = specStreamConcat c6Chunks
      ∧ extract_conversation jloadsNone (.obj c6Record)
        = [] ++ (if ("Hello" : String) = "" then []
            else [⟨.str "assistant", .str "Hello",
              (JValue.obj c6Record).pyGet "timestamp"⟩])) :=
  ⟨rfl, rfl, rfl, rfl,
   C6_streaming_chunks_concatenated jloadsNone c6Record
     [("content", JValue.arr c6Chunks)] c6Chunks "Hello" [] rfl rfl rfl rfl⟩

/-- The turns a phase contributes whether it completed or raised (the
outer `except` keeps whatever was appended). -/
def phaseTurns (e : Except (List Turn) (List Turn)) : List Turn :=
  match e with
  | .ok ts => ts
  | .error ts => ts

/-- The record refuting C4: `request.content.messages` is a non-iterable
number, `response.content` is a non-JSON string. -/
def c4Record : JValue :=
  .obj [("request", .obj [("content", .obj [("messages", .num 5)])]),
        ("response", .obj [("content", .str "hi")])]

/-- C4 as stated is false on the code: on `c4Record` the wrong-typed
`messages` raises inside the request branch, the shared `try`/`except`
aborts the rest of extraction, and the response source — a non-JSON
string that in isolation yields one assistant turn — produces nothing:
the mismatch was not absorbed locally. -/
theorem C4_counterexample :
    JValue.lookup "content" [("content", JValue.str "hi")] = some (.str "hi")
    ∧ jloadsNone "hi" = none
    ∧ responsePhase jloadsNone c4Record
        = .ok [⟨.str "assistant", .str "hi", .null⟩]
    ∧ extract_conversation jloadsNone c4Record = [] :=
  ⟨rfl, rfl, rfl, rfl⟩

theorem msgTurns_all_obj (tstamp : JValue) :
    ∀ (ms : List JValue) (acc : List Turn), (∀ m ∈ ms, ∃ o, m = JValue.obj o) →
    ∃ res, msgTurns tstamp ms acc = .ok res
  | [], acc, _ => ⟨acc, rfl⟩
  | m :: rest, acc, h => by
    obtain ⟨o, ho⟩ := h m (by simp)
    subst ho
    rcases hrole : o.any (fun p => p.1 == "role") with _ | _
    · have hstep : msgTurns tstamp (JValue.obj o :: rest) acc
          = msgTurns tstamp rest acc := by
        simp [msgTurns, JValue.pyContains, hrole]
      rw [hstep]
      exact msgTurns_all_obj tstamp rest acc (fun y hy => h y (by simp [hy]))
    · rcases hcont : o.any (fun p => p.1 == "content") with _ | _
      · have hstep : msgTurns tstamp (JValue.obj o :: rest) acc
            = msgTurns tstamp rest acc := by
          simp [msgTurns, JValue.pyContains, hrole, hcont]
        rw [hstep]
        exact msgTurns_all_obj tstamp rest acc (fun y hy => h y (by simp [hy]))
      · obtain ⟨r, hr⟩ := lookup_isSome_of_any hrole
        obtain ⟨c, hc⟩ := lookup_isSome_of_any hcont
        have hstep : msgTurns tstamp (JValue.obj o :: rest) acc
            = msgTurns tstamp rest (acc ++ [⟨r, c, tstamp⟩]) := by
          simp [msgTurns, JValue.pyContains, hrole, hcont,
            JValue.pySubscript, hr, hc]
        rw [hstep]
        exact msgTurns_all_obj tstamp rest _ (fun y hy => h y (by simp [hy]))

/-- C4 amended: extraction never raises to its caller (the shared
`try`/`except` returns the turns accumulated so far), and a record that
yields zero turns still produces a valid document; a structural mismatch
caught by the code's type/key guards is absorbed locally, and when every
entry of the `messages` list is a dict the request branch cannot raise,
so the response source contributes its turns unaffected — but (per the
counterexample) an unguarded wrong type inside the request branch raises
and suppresses the response source's turns. -/
theorem C4_amended_absorption (jloads : String → Option JValue) :
    (∀ (load : String → Option JValue) (now : String) (fi : FileInfo)
        (fs : List (String × JValue)), load fi.path = some (.obj fs) →
      ∃ doc, process_file jloads load now fi = some doc
        ∧ doc.conversation = extract_conversation jloads (.obj fs))
    ∧ (∀ (fs rqs mfs : List (String × JValue)) (rc0 : JValue) (ms : List JValue),
        JValue.lookup "request" fs = some (.obj rqs) →
        JValue.lookup "content" rqs = some rc0 →
        parsedContent jloads rc0 = .obj mfs →
        JValue.lookup "messages" mfs = some (.arr ms) →
        (∀ m ∈ ms, ∃ o, m = JValue.obj o) →
        ∃ reqTs, requestPhase jloads (.obj fs) = .ok reqTs
          ∧ extract_conversation jloads (.obj fs)
            = reqTs ++ phaseTurns (responsePhase jloads (.obj fs))) := by
  constructor
  · intro load now fi fs hload
    unfold process_file
    rw [hload]
    exact ⟨_, rfl, rfl⟩
  · intro fs rqs mfs rc0 ms hreq hcont hparse hmsgs hobj
    obtain ⟨res, hres⟩ :=
      msgTurns_all_obj ((JValue.obj fs).pyGet "timestamp") ms [] hobj
    have hreqTs : requestPhase jloads (.obj fs) = .ok res := by
      simp only [requestPhase, JValue.pyContains, any_of_lookup hreq,
        JValue.pySubscript, hreq, any_of_lookup hcont, hcont, hparse,
        hmsgs, JValue.pyIter, hres]
    refine ⟨res, hreqTs, ?_⟩
    unfold extract_conversation
    rw [hreqTs]
    rcases hrp : responsePhase jloads (.obj fs) with ts2 | ts2 <;>
      simp [phaseTurns]

/-- The well-shaped record of C4's witness: one dict message and a
plain-text response, so both sources contribute. -/
def c4GoodRecord : List (String × JValue) :=
  [("timestamp", .str "T4"),
   ("request", .obj [("content", .obj [("messages",
      .arr [.obj [("role", .str "user"), ("content", .str "Q")]])])]),
   ("response", .obj [("content", .str "A")])]

/-- Witness for the amended C4: the loadable zero-turn record `recG`
still yields a document, and on `c4GoodRecord` the all-dict `messages`
hypothesis is discharged so request and response turns compose. -/
theorem C4_witness :
    (∃ doc, process_file jloadsNone
        (fun p => if p = fileG then some recG else none) "N" ⟨fileG, "alice"⟩
        = some doc
      ∧ doc.conversation = extract_conversation jloadsNone
          (.obj [("timestamp", .str "T")]))
    ∧ (∃ reqTs, requestPhase jloadsNone (.obj c4GoodRecord) = .ok reqTs
        ∧ extract_conversation jloadsNone (.obj c4GoodRecord)
          = reqTs ++ phaseTurns (responsePhase jloadsNone (.obj c4GoodRecord))) := by
  constructor
  · exact (C4_amended_absorption jloadsNone).1
      (fun p => if p = fileG then some recG else none) "N" ⟨fileG, "alice"⟩
      [("timestamp", .str "T")] rfl
  · refine (C4_amended_absorption jloadsNone).2 c4GoodRecord
      [("content", .obj [("messages",
        .arr [.obj [("role", .str "user"), ("content", .str "Q")]])])]
      [("messages", .arr [.obj [("role", .str "user"), ("content", .str "Q")]])]
      (.obj [("messages", .arr [.obj [("role", .str "user"),
        ("content", .str "Q")]])])
      [.obj [("role", .str "user"), ("content", .str "Q")]]
      rfl rfl rfl rfl ?_
    intro m hm
    simp only [List.mem_singleton] at hm
    exact ⟨_, hm⟩

/-- C8: the filename decoders return the 2nd, 3rd and 4th
underscore-delimited tokens as machine id, IP address and editor
version, each missing token independently resolving to `"unknown"`
(decoding is a total function, so it never raises), and the metadata
map built by `extract_metadata` for any record always contains the keys
`ip_address`, `machine_id` and `editor_version`; a filename with only
two underscore tokens yields `"unknown"` for IP and editor version. -/
theorem C8_decoders_total_metadata_keys_present :
    (∀ f : String,
      extract_machine_id f = (pySplit '_' f).getD 1 "unknown"
      ∧ extract_ip_address f = (pySplit '_' f).getD 2 "unknown"
      ∧ extract_editor_version f = (pySplit '_' f).getD 3 "unknown")
    ∧ (∀ (fs : List (String × JValue)) (filename : String),
      JValue.lookup "ip_address" (extract_metadata (.obj fs) filename)
        = some (.str (extract_ip_address (basename filename)))
      ∧ JValue.lookup "machine_id" (extract_metadata (.obj fs) filename)
        = some (.str (extract_machine_id (basename filename)))
      ∧ JValue.lookup "editor_version" (extract_metadata (.obj fs) filename)
        = some (.str (extract_editor_version (basename filename))))
    ∧ extract_ip_address "2025-03_abc123.json" = "unknown"
    ∧ extract_editor_version "2025-03_abc123.json" = "unknown" := by
  refine ⟨?_, ?_, by decide, by decide⟩
  · intro f
    exact ⟨decoder_token _ 1, decoder_token _ 2, decoder_token _ 3⟩
  · intro fs filename
    unfold extract_metadata
    rcases hany : fs.any (fun p => p.1 == "proxy-time-consumed") with _ | _
    · rcases hmc : modelChain (.obj fs) with _ | v
      · simp [JValue.pyContains, hany, hmc, JValue.lookup]
      · rcases v with _ | mv <;>
          simp [JValue.pyContains, hany, hmc, JValue.lookup]
    · obtain ⟨v, hv⟩ := lookup_isSome_of_any hany
      rcases hmc : modelChain (.obj fs) with _ | w
      · simp [JValue.pyContains, hany, hmc, JValue.pySubscript, hv, JValue.lookup]
      · rcases w with _ | mv <;>
          simp [JValue.pyContains, hany, hmc, JValue.pySubscript, hv, JValue.lookup]

/-- C9: index creation and bulk writes address the single fixed index
`copilot-chat-logs`, but the search operation queries the pattern
`copilot-chat-logs-*`, which does not match that index — the code
contradicts the single-fixed-index contract (and `get_index_name`'s own
docstring). -/
theorem C9_search_pattern_never_matches_write_index :
    create_index_index_name = "copilot-chat-logs"
    ∧ bulk_index_index_name = "copilot-chat-logs"
    ∧ search_index_arg = "copilot-chat-logs-*"
    ∧ esPatternMatches search_index_arg bulk_index_index_name = false
    ∧ search_index_arg ≠ create_index_index_name := by
  exact ⟨rfl, rfl, by decide, by decide, by decide⟩

end MitmES
